import Mathlib

/-!
# Verification of the Lotería board generator core

Shallow embedding of `src/loteria_generator.py`: the greedy frequency
allocator `_generate_balanced`, the overlap heuristic `_overlap_score`, and
the duplicate repair engine `_repair_duplicates`.  Boards are modelled as
`Finset ℕ` (Python `set`s of item indices); the item-to-boards map is a
`List (List ℕ)` (Python list of lists); capacities are a `List ℕ`.  Python's
iteration over a set of small item indices is canonicalized as ascending
iteration; Python's stable `sort` with a key is `List.insertionSort` with the
corresponding non-strict preorder.  Errors raised by the code are modelled
with `Except`: the two `RuntimeError`s of the core (`"Cannot place item"`,
`"Could not repair"`) and the `assert` statements of `_generate_balanced`.
-/

namespace Loteria

/-- Constant `NUM_BOARDS = 15` from the source. -/
def NUM_BOARDS : ℕ := 15

/-- Constant `BOARD_SIZE = 16` from the source. -/
def BOARD_SIZE : ℕ := 16

/-- Constant `NUM_ITEMS = len(ITEMS) = 36` from the source. -/
def NUM_ITEMS : ℕ := 36

/-- Constant `FIRST_24_FREQUENCY = 7` from the source. -/
def FIRST_24_FREQUENCY : ℕ := 7

/-- Constant `LAST_12_FREQUENCY = 6` from the source. -/
def LAST_12_FREQUENCY : ℕ := 6

/-- Function `get_item_frequency`: 7 for indices below 24, else 6. -/
def get_item_frequency (item_index : ℕ) : ℕ :=
  if item_index < 24 then FIRST_24_FREQUENCY else LAST_12_FREQUENCY

/-- Build a `Finset` from a list of item indices (a Python set literal). -/
def mkF (l : List ℕ) : Finset ℕ := l.foldr insert ∅

/-- The errors the core can raise: the `RuntimeError` in `_generate_balanced`
(insufficient board capacity), the `RuntimeError` in `_repair_duplicates`
(no valid swap for a duplicate pair), and the `assert` statements checked at
the end of `_generate_balanced`. -/
inductive GenError where
  | insufficientCapacity
  | repairExhausted
  | assertionFailed
deriving DecidableEq

/-- The mutable state of `_generate_balanced`: `boards_items`,
`item_to_boards` and `board_capacity`. -/
structure GenState where
  boards : List (Finset ℕ)
  itb : List (List ℕ)
  capacity : List ℕ

instance : DecidableEq GenState := fun a b =>
  decidable_of_decidable_of_iff
    (p := a.boards = b.boards ∧ a.itb = b.itb ∧ a.capacity = b.capacity)
    (Iff.intro
      (fun h => by obtain ⟨h1, h2, h3⟩ := h; cases a; cases b; cases h1; cases h2; cases h3; rfl)
      (fun h => by cases h; exact ⟨rfl, rfl, rfl⟩))

instance {e a : Type} [DecidableEq e] [DecidableEq a] : DecidableEq (Except e a) := fun x y =>
  match x, y with
  | .ok v, .ok w =>
    decidable_of_decidable_of_iff
      (p := v = w)
      (Iff.intro (fun h => congrArg Except.ok h) (fun h => Except.ok.inj h))
  | .error v, .error w =>
    decidable_of_decidable_of_iff
      (p := v = w)
      (Iff.intro (fun h => congrArg Except.error h) (fun h => Except.error.inj h))
  | .ok _, .error _ => isFalse (fun hc => Except.noConfusion hc)
  | .error _, .ok _ => isFalse (fun hc => Except.noConfusion hc)

/-- Function `_overlap_score(item, board, boards_items)`: over every other board `o`,
`len(current_items & boards_items[o])`, plus one when `item` is already in
`o`; the score is the maximum of these counts (`0` for an empty list). -/
def overlap_score (item : ℕ) (board : ℕ) (boards_items : List (Finset ℕ)) : ℕ :=
  let current_items := boards_items.getD board ∅
  let overlap_counts :=
    ((List.range NUM_BOARDS).filter (fun o => decide (o ≠ board))).map
      (fun o => (current_items ∩ boards_items.getD o ∅).card +
        if item ∈ boards_items.getD o ∅ then 1 else 0)
  overlap_counts.foldr max 0

/-- The simulated overlap the spec describes for a candidate `(item, board)`
pair against one other board `o`: the count of items already shared between
`board` and `o`, incremented by one if `item` is already present in `o`. -/
def simulatedOverlap (item : ℕ) (board : ℕ) (boards_items : List (Finset ℕ)) (o : ℕ) : ℕ :=
  (boards_items.getD board ∅ ∩ boards_items.getD o ∅).card +
    if item ∈ boards_items.getD o ∅ then 1 else 0

/-- Python's sort key `(score, -capacity)` on the tuples
`(board, capacity, score)` of `_generate_balanced`, as a non-strict
preorder: the relation under which Python's stable sort orders the list. -/
def allocLe (a b : ℕ × ℕ × ℕ) : Prop :=
  a.2.2 < b.2.2 ∨ (a.2.2 = b.2.2 ∧ b.2.1 ≤ a.2.1)

instance : DecidableRel allocLe := fun a b => by unfold allocLe; exact inferInstance

/-- The full selection order claimed by the spec: ascending overlap score,
ties by descending remaining capacity, remaining ties by ascending board
index. -/
def allocLeFull (a b : ℕ × ℕ × ℕ) : Prop :=
  a.2.2 < b.2.2 ∨ (a.2.2 = b.2.2 ∧ (b.2.1 < a.2.1 ∨ (b.2.1 = a.2.1 ∧ a.1 ≤ b.1)))

instance : DecidableRel allocLeFull := fun a b => by unfold allocLeFull; exact inferInstance

/-- The `available_boards` list comprehension: for each `b` in
`range(NUM_BOARDS)` with positive remaining capacity not already holding
`item`, the tuple `(b, board_capacity[b], _overlap_score(item, b, ...))`. -/
def availableBoards (st : GenState) (item : ℕ) : List (ℕ × ℕ × ℕ) :=
  ((List.range NUM_BOARDS).filter
      (fun b => decide (0 < st.capacity.getD b 0 ∧ item ∉ st.boards.getD b ∅))).map
    (fun b => (b, st.capacity.getD b 0, overlap_score item b st.boards))

/-- Sorting `available_boards.sort(key=lambda x: (x[2], -x[1]))` followed by
`available_boards[:freq]`: Python's stable sort is `insertionSort` with the
non-strict key preorder. -/
def select_boards (st : GenState) (item : ℕ) : List (ℕ × ℕ × ℕ) :=
  (List.insertionSort allocLe (availableBoards st item)).take (get_item_frequency item)

/-- One placement: `boards_items[b].add(item)`, `board_capacity[b] -= 1`,
`item_to_boards[item].append(b)`. -/
def placeOne (st : GenState) (item b : ℕ) : GenState :=
  { boards := st.boards.set b (insert item (st.boards.getD b ∅))
    itb := st.itb.set item ((st.itb.getD item []) ++ [b])
    capacity := st.capacity.set b (st.capacity.getD b 0 - 1) }

/-- The `for b, _, _ in selected` loop. -/
def placeItem (st : GenState) (item : ℕ) (sel : List (ℕ × ℕ × ℕ)) : GenState :=
  sel.foldl (fun s t => placeOne s item t.1) st

/-- One iteration of the allocator loop body for a single item: fail with
the `"Cannot place item"` error when fewer eligible boards exist than the
item's required frequency, otherwise place the item on the selected
boards. -/
def allocStep (st : GenState) (item : ℕ) : Except GenError GenState :=
  if (availableBoards st item).length < get_item_frequency item then
    .error .insufficientCapacity
  else
    .ok (placeItem st item (select_boards st item))

/-- The allocator loop over a list of items. -/
def allocItems : List ℕ → GenState → Except GenError GenState
  | [], st => .ok st
  | i :: rest, st =>
    match allocStep st i with
    | .error e => .error e
    | .ok st' => allocItems rest st'

/-- Key order of `sorted(range(NUM_ITEMS), key=lambda i: get_item_frequency(i))`:
Python's stable sort by frequency. -/
def freqLe (i j : ℕ) : Prop := get_item_frequency i ≤ get_item_frequency j

instance : DecidableRel freqLe := fun i j => by unfold freqLe; exact inferInstance

/-- List `items_by_freq` from the source. -/
def items_by_freq : List ℕ := List.insertionSort freqLe (List.range NUM_ITEMS)

/-- The initial state of `_generate_balanced`: empty boards, empty
item-to-board lists, every capacity `BOARD_SIZE`. -/
def initState : GenState :=
  { boards := List.replicate NUM_BOARDS ∅
    itb := List.replicate NUM_ITEMS []
    capacity := List.replicate NUM_BOARDS BOARD_SIZE }

/-- Iterating a Python set of item indices: ascending order over the
catalogue range (Python set iteration canonicalized; every item the core
handles is below `NUM_ITEMS`). -/
def setAsc (s : Finset ℕ) : List ℕ :=
  (List.range NUM_ITEMS).filter (fun i => decide (i ∈ s))

/-- The duplicate scan of `_repair_duplicates`: scanning boards in index
order with a `seen` map from item set to first index, the first duplicate
pair `(b1, b2)` is the pair whose second component is smallest, with `b1`
the first earlier board holding the same item set. -/
def findDupPair (bs : List (Finset ℕ)) : Option (ℕ × ℕ) :=
  (List.range NUM_BOARDS).findSome? (fun b =>
    ((List.range b).find? (fun a => decide (bs.getD a ∅ = bs.getD b ∅))).map
      (fun a => (a, b)))

/-- The triple swap search of `_repair_duplicates`: outer loop over items of
board `b2`, middle loop over the other boards `b3`, inner loop over items of
`b3`; the first triple with `item_in_b2 not in boards_items[b3]`,
`item_in_b3 not in boards_items[b2]` and a post-swap `b2` different from
`b1` is taken. -/
def findSwap (bs : List (Finset ℕ)) (b1 b2 : ℕ) : Option (ℕ × ℕ × ℕ) :=
  (setAsc (bs.getD b2 ∅)).findSome? (fun x =>
    ((List.range NUM_BOARDS).filter (fun b3 => decide (b3 ≠ b1 ∧ b3 ≠ b2))).findSome?
      (fun b3 =>
        (setAsc (bs.getD b3 ∅)).findSome? (fun y =>
          if x ∉ bs.getD b3 ∅ ∧ y ∉ bs.getD b2 ∅ ∧
              insert y ((bs.getD b2 ∅).erase x) ≠ bs.getD b1 ∅ then
            some (x, b3, y)
          else none)))

/-- Applying the swap: remove `x` from board `b2` and add `y` there, remove
`y` from board `b3` and add `x` there, and update `item_to_boards` by the
paired `remove`/`append` calls of the source. -/
def applySwap (st : GenState) (x b2 y b3 : ℕ) : GenState :=
  { boards := (st.boards.set b2 (insert y ((st.boards.getD b2 ∅).erase x))).set b3
      (insert x ((st.boards.getD b3 ∅).erase y))
    itb := (st.itb.set x ((st.itb.getD x []).erase b2 ++ [b3])).set y
      ((st.itb.getD y []).erase b3 ++ [b2])
    capacity := st.capacity }

/-- Function `_repair_duplicates`: `for iteration in range(max_iterations)`; a pass
returns when no duplicates remain, raises the `"Could not repair"` error
when the first duplicate pair admits no swap, and otherwise applies the
first swap found; when the bounded loop is exhausted the function falls
through and returns normally. -/
def repairLoop : ℕ → GenState → Except GenError GenState
  | 0, st => .ok st
  | n + 1, st =>
    match findDupPair st.boards with
    | none => .ok st
    | some (b1, b2) =>
      match findSwap st.boards b1 b2 with
      | none => .error .repairExhausted
      | some (x, b3, y) => repairLoop n (applySwap st x b2 y b3)

/-- The `assert` statements at the end of `_generate_balanced`: every board
holds exactly `BOARD_SIZE` items, every item's board list has exactly its
required frequency, and no two boards hold identical item sets. -/
def checkAsserts (st : GenState) : Bool :=
  decide ((∀ b < NUM_BOARDS, (st.boards.getD b ∅).card = BOARD_SIZE) ∧
    (∀ i < NUM_ITEMS, (st.itb.getD i []).length = get_item_frequency i) ∧
    (∀ a < NUM_BOARDS, ∀ b < NUM_BOARDS, a ≠ b →
      st.boards.getD a ∅ ≠ st.boards.getD b ∅))

/-- Function `_generate_balanced`: allocate every item in frequency order, repair
duplicates with at most 100 passes, check the assertions, and return the
final boards (the conversion to sorted item-name lists is out of core
scope). -/
def generate_balanced : Except GenError (List (Finset ℕ)) := do
  let st ← allocItems items_by_freq initState
  let st' ← repairLoop 100 st
  if checkAsserts st' then .ok st'.boards else .error .assertionFailed

/-- Number of boards containing item `i` (the item's realized frequency). -/
def countIn (bs : List (Finset ℕ)) (i : ℕ) : ℕ :=
  ((Finset.range NUM_BOARDS).filter (fun b => i ∈ bs.getD b ∅)).card

/-- The frequency invariant of the spec. -/
def FreqInv (bs : List (Finset ℕ)) : Prop :=
  ∀ i < NUM_ITEMS, countIn bs i = get_item_frequency i

/-- The card-size invariant of the spec. -/
def SizeInv (bs : List (Finset ℕ)) : Prop :=
  ∀ b < NUM_BOARDS, (bs.getD b ∅).card = BOARD_SIZE

/-- The no-identical-cards invariant of the spec. -/
def NoDupB (bs : List (Finset ℕ)) : Prop :=
  ∀ a < NUM_BOARDS, ∀ b < NUM_BOARDS, a ≠ b → bs.getD a ∅ ≠ bs.getD b ∅

/-- Bidirectional consistency of the two views: for every item, its board
list has no repeats, stays within the board range, and holds exactly the
boards whose item sets contain the item. -/
def Consistent (st : GenState) : Prop :=
  ∀ i < NUM_ITEMS, (st.itb.getD i []).Nodup ∧
    (∀ b ∈ st.itb.getD i [], b < NUM_BOARDS) ∧
    (∀ b < NUM_BOARDS, (b ∈ st.itb.getD i [] ↔ i ∈ st.boards.getD b ∅))

instance (st : GenState) : Decidable (Consistent st) := by
  unfold Consistent; exact inferInstance

instance (bs : List (Finset ℕ)) : Decidable (FreqInv bs) := by
  unfold FreqInv; exact inferInstance

instance (bs : List (Finset ℕ)) : Decidable (SizeInv bs) := by
  unfold SizeInv; exact inferInstance

instance (bs : List (Finset ℕ)) : Decidable (NoDupB bs) := by
  unfold NoDupB; exact inferInstance

/-- A concrete 15-board assignment satisfying the frequency and card-size
invariants on which the repair search oscillates with period two: boards 0
and 1 both hold items `{0, …, 15}`, board 2 holds `{1, …, 16}`, and the
remaining twelve boards are pairwise distinct 16-item sets that complete
every item's frequency exactly. -/
def oscBoards : List (Finset ℕ) :=
  [ mkF (List.range 16),
    mkF (List.range 16),
    mkF ((List.range 16).map (· + 1)),
    mkF [0, 2, 5, 8, 11, 14, 17, 18, 20, 22, 25, 26, 28, 30, 32, 34],
    mkF [0, 3, 6, 9, 12, 15, 17, 19, 20, 22, 24, 26, 28, 30, 32, 34],
    mkF [0, 2, 6, 9, 12, 15, 17, 19, 20, 22, 24, 26, 28, 30, 32, 34],
    mkF [0, 3, 6, 9, 12, 15, 17, 19, 21, 22, 24, 26, 28, 30, 32, 34],
    mkF [0, 3, 5, 9, 12, 15, 17, 19, 21, 22, 24, 26, 28, 30, 32, 34],
    mkF [1, 4, 7, 10, 13, 16, 17, 19, 21, 23, 24, 26, 28, 30, 32, 34],
    mkF [1, 4, 7, 10, 13, 16, 18, 19, 21, 23, 25, 27, 29, 31, 33, 35],
    mkF [1, 4, 7, 10, 13, 16, 18, 19, 21, 23, 24, 27, 29, 31, 33, 35],
    mkF [1, 4, 7, 10, 13, 16, 18, 20, 21, 23, 25, 27, 29, 31, 33, 35],
    mkF [3, 5, 8, 11, 14, 16, 18, 20, 21, 23, 25, 27, 29, 31, 33, 35],
    mkF [2, 6, 8, 11, 14, 16, 18, 20, 22, 23, 25, 27, 29, 31, 33, 35],
    mkF [2, 5, 8, 11, 14, 17, 18, 20, 22, 23, 25, 27, 29, 31, 33, 35] ]

/-- The item-to-boards view matching `oscBoards` (each item maps to the
ascending list of boards containing it). -/
def oscItb : List (List ℕ) :=
  (List.range NUM_ITEMS).map
    (fun i => (List.range NUM_BOARDS).filter (fun b => decide (i ∈ oscBoards.getD b ∅)))

/-- The oscillating repair input as a full generator state (capacities are
all zero: every board is full). -/
def oscSt : GenState :=
  { boards := oscBoards, itb := oscItb, capacity := List.replicate NUM_BOARDS 0 }

/-- The state reached from `oscSt` after the 100 bounded repair passes: the
boards are unchanged (the two swaps of the period-2 cycle were applied 50
times each), and only the board lists of items 0 and 16 are rotated. -/
def oscFinal : GenState :=
  { boards := oscBoards
    itb := (oscItb.set 0 [0, 3, 4, 5, 6, 7, 1]).set 16 [8, 9, 10, 11, 12, 13, 2]
    capacity := List.replicate NUM_BOARDS 0 }

/-- The value computed by `_generate_balanced` under the embedding: the
allocator output after the single repair swap (boards 9 and 10 were the one
duplicate pair; items 1 and 0 were exchanged between board 10 and board
0). -/
def pipelineOutput : List (Finset ℕ) :=
  [ mkF [1, 2, 5, 8, 10, 12, 14, 17, 19, 21, 22, 24, 26, 29, 31, 34],
    mkF [0, 2, 5, 8, 11, 12, 14, 17, 19, 21, 22, 24, 26, 29, 31, 34],
    mkF [0, 3, 5, 7, 8, 10, 12, 15, 16, 17, 18, 24, 26, 29, 31, 34],
    mkF [0, 2, 3, 5, 7, 10, 13, 15, 17, 20, 22, 24, 27, 29, 32, 34],
    mkF [1, 3, 5, 7, 9, 10, 13, 15, 17, 20, 22, 24, 27, 29, 32, 34],
    mkF [1, 3, 6, 7, 10, 12, 13, 15, 18, 19, 20, 24, 27, 29, 32, 34],
    mkF [1, 3, 6, 8, 11, 13, 15, 17, 19, 21, 23, 25, 27, 30, 32, 35],
    mkF [1, 3, 6, 8, 11, 13, 16, 17, 19, 21, 23, 25, 27, 30, 32, 35],
    mkF [1, 4, 5, 6, 8, 10, 11, 13, 15, 18, 19, 25, 27, 30, 32, 35],
    mkF [1, 4, 6, 9, 11, 14, 16, 18, 20, 22, 23, 25, 28, 30, 33, 35],
    mkF [0, 4, 6, 9, 11, 14, 16, 18, 20, 22, 23, 25, 28, 30, 33, 35],
    mkF [2, 3, 4, 5, 6, 8, 9, 10, 11, 13, 15, 25, 28, 30, 33, 35],
    mkF [0, 2, 4, 7, 9, 12, 14, 16, 18, 20, 21, 23, 26, 28, 31, 33],
    mkF [0, 2, 4, 7, 9, 12, 14, 16, 18, 21, 22, 23, 26, 28, 31, 33],
    mkF [0, 2, 4, 7, 9, 12, 14, 16, 19, 20, 21, 23, 26, 28, 31, 33] ]

/-- A state on which the repair search finds no valid swap: every board
holds the same item set, so no candidate item can move anywhere. -/
def allSameSt : GenState :=
  { boards := List.replicate NUM_BOARDS (mkF (List.range 16))
    itb := List.replicate NUM_ITEMS []
    capacity := List.replicate NUM_BOARDS 0 }

/-- A state with no remaining capacity anywhere, used to exercise the
allocator's insufficient-capacity failure. -/
def zeroCapSt : GenState :=
  { boards := List.replicate NUM_BOARDS ∅
    itb := List.replicate NUM_ITEMS []
    capacity := List.replicate NUM_BOARDS 0 }

/-- A small consistent state used to instantiate the swap lemmas: board 0
holds item 0, board 1 holds item 1, the other boards are empty. -/
def smallSt : GenState :=
  { boards := [mkF [0], mkF [1]] ++ List.replicate 13 ∅
    itb := [[0], [1]] ++ List.replicate 34 []
    capacity := List.replicate NUM_BOARDS 0 }

/-- A generator state holding the repaired pipeline boards (with empty
item lists), used to instantiate the repair-contract theorem on a
duplicate-free input. -/
def pipeSt : GenState :=
  { boards := pipelineOutput
    itb := List.replicate NUM_ITEMS []
    capacity := List.replicate NUM_BOARDS 0 }

set_option maxRecDepth 100000 in
/-- The evaluation of the full pipeline, shared by the theorems that inspect
its output. -/
theorem pipeline_eval : generate_balanced = .ok pipelineOutput := by decide

set_option maxRecDepth 100000 in
/-- The evaluation of the bounded repair loop on the oscillating input,
shared by the theorems that inspect the pass-limit behaviour. -/
theorem osc_eval : repairLoop 100 oscSt = .ok oscFinal := by decide


theorem getD_set_ne {α : Type} (l : List α) {i j : ℕ} (h : j ≠ i) (v d : α) :
    (l.set i v).getD j d = l.getD j d := by
  simp [List.getD_eq_getElem?_getD, List.getElem?_set_ne (Ne.symm h)]

theorem getD_set_self {α : Type} (l : List α) {i : ℕ} (h : i < l.length) (v d : α) :
    (l.set i v).getD i d = v := by
  simp [List.getD_eq_getElem?_getD, List.getElem?_set_eq_of_lt v h]

theorem le_foldr_max (l : List ℕ) : ∀ x ∈ l, x ≤ l.foldr max 0 := by
  induction l with
  | nil => intro x hx; cases hx
  | cons a t ih =>
    intro x hx
    rcases List.mem_cons.mp hx with h | h
    · subst h; exact le_max_left _ _
    · exact le_trans (ih x h) (le_max_right _ _)

theorem foldr_max_mem (l : List ℕ) (h : l ≠ []) : l.foldr max 0 ∈ l := by
  induction l with
  | nil => exact absurd rfl h
  | cons a t ih =>
    by_cases ht : t = []
    · subst ht; simp
    · rcases max_choice a (t.foldr max 0) with h1 | h1 <;>
        simp only [List.foldr_cons, h1]
      · exact List.mem_cons_self a t
      · exact List.mem_cons_of_mem a (ih ht)

theorem mem_setAsc {s : Finset ℕ} {x : ℕ} : x ∈ setAsc s ↔ x < NUM_ITEMS ∧ x ∈ s := by
  simp [setAsc, List.mem_filter, List.mem_range]

/-- C6: for every candidate `(item, board)` pair and every partial
assignment, the overlap heuristic score is an upper bound for, and is
attained by, the simulated overlap against the other boards: it equals the
maximum over all boards other than the candidate board of the number of
shared items plus one exactly when the item is already on that board. -/
theorem claim_C6 (item board : ℕ) (bs : List (Finset ℕ)) :
    (∀ o, o < NUM_BOARDS → o ≠ board →
      simulatedOverlap item board bs o ≤ overlap_score item board bs) ∧
    (∃ o, o < NUM_BOARDS ∧ o ≠ board ∧
      simulatedOverlap item board bs o = overlap_score item board bs) := by
  constructor
  · intro o ho hne
    apply le_foldr_max
    apply List.mem_map.mpr
    refine ⟨o, ?_, rfl⟩
    exact List.mem_filter.mpr ⟨List.mem_range.mpr ho, decide_eq_true hne⟩
  · have hll : ((List.range NUM_BOARDS).filter (fun o => decide (o ≠ board))) ≠ [] := by
      intro hnil
      have hw : (if board = 0 then 1 else 0) ∈
          (List.range NUM_BOARDS).filter (fun o => decide (o ≠ board)) := by
        apply List.mem_filter.mpr
        constructor
        · apply List.mem_range.mpr
          by_cases hb : board = 0 <;> simp [hb, NUM_BOARDS]
        · by_cases hb : board = 0
          · simp [hb]
          · simp [hb]
            omega
      rw [hnil] at hw
      cases hw
    have hrw : overlap_score item board bs =
        (((List.range NUM_BOARDS).filter (fun o => decide (o ≠ board))).map
          (fun o => simulatedOverlap item board bs o)).foldr max 0 := rfl
    have hmem := foldr_max_mem
      (((List.range NUM_BOARDS).filter (fun o => decide (o ≠ board))).map
        (fun o => simulatedOverlap item board bs o))
      (fun hnil => hll (List.map_eq_nil_iff.mp hnil))
    rw [← hrw] at hmem
    obtain ⟨o, ho, heq⟩ := List.mem_map.mp hmem
    have ho' := List.mem_filter.mp ho
    exact ⟨o, List.mem_range.mp ho'.1, of_decide_eq_true ho'.2, heq⟩

theorem orderedInsert_congr {α : Type} (r s : α → α → Prop)
    [DecidableRel r] [DecidableRel s] (a : α) :
    ∀ l : List α, (∀ b ∈ l, r a b ↔ s a b) →
      l.orderedInsert r a = l.orderedInsert s a := by
  intro l
  induction l with
  | nil => intro _; rfl
  | cons b t ih =>
    intro h
    simp only [List.orderedInsert]
    by_cases hr : r a b
    · rw [if_pos hr, if_pos ((h b (List.mem_cons_self b t)).mp hr)]
    · rw [if_neg hr, if_neg (fun hs => hr ((h b (List.mem_cons_self b t)).mpr hs)),
        ih (fun c hc => h c (List.mem_cons_of_mem b hc))]

theorem insertionSort_congr {α : Type} (r s : α → α → Prop)
    [DecidableRel r] [DecidableRel s] (idx : α → ℕ)
    (hrs : ∀ a b, idx a < idx b → (r a b ↔ s a b)) :
    ∀ l : List α, l.Pairwise (fun a b => idx a < idx b) →
      l.insertionSort r = l.insertionSort s := by
  intro l
  induction l with
  | nil => intro _; rfl
  | cons a t ih =>
    intro hp
    have hp' := List.pairwise_cons.mp hp
    simp only [List.insertionSort]
    rw [ih hp'.2]
    apply orderedInsert_congr
    intro b hb
    exact hrs a b (hp'.1 b ((List.mem_insertionSort s).mp hb))

theorem availableBoards_pairwise (st : GenState) (item : ℕ) :
    (availableBoards st item).Pairwise (fun a b => a.1 < b.1) := by
  unfold availableBoards
  rw [List.pairwise_map]
  exact List.Pairwise.filter _ (List.pairwise_lt_range NUM_BOARDS)

theorem allocLe_iff_full {a b : ℕ × ℕ × ℕ} (h : a.1 < b.1) :
    allocLe a b ↔ allocLeFull a b := by
  unfold allocLe allocLeFull
  constructor
  · rintro (h1 | ⟨h1, h2⟩)
    · exact Or.inl h1
    · exact Or.inr ⟨h1, by omega⟩
  · rintro (h1 | ⟨h1, h2 | ⟨h2, _⟩⟩)
    · exact Or.inl h1
    · exact Or.inr ⟨h1, le_of_lt h2⟩
    · exact Or.inr ⟨h1, le_of_eq h2⟩

/-- C7: for each item being placed, the allocator's selection (Python's
stable sort by `(score, -capacity)` over the index-ascending eligible list,
then the first `frequency` entries) equals the first `frequency` entries of
the eligible boards under the full order: ascending overlap score, ties by
descending remaining capacity, remaining ties by ascending board index. -/
theorem claim_C7 (st : GenState) (item : ℕ) :
    select_boards st item =
      (List.insertionSort allocLeFull (availableBoards st item)).take
        (get_item_frequency item) := by
  unfold select_boards
  congr 1
  exact insertionSort_congr allocLe allocLeFull (fun t => t.1)
    (fun a b h => allocLe_iff_full h) _ (availableBoards_pairwise st item)

/-- C8: the allocator processes items in ascending frequency order with
ties broken by catalogue index: items 24–35 first in index order, then
items 0–23 in index order. -/
theorem claim_C8 :
    items_by_freq = (List.range 12).map (fun k => 24 + k) ++ List.range 24 := by
  decide


theorem repairLoop_succ_none {n : ℕ} {st : GenState}
    (h : findDupPair st.boards = none) : repairLoop (n + 1) st = .ok st := by
  unfold repairLoop
  simp only [h]

theorem repairLoop_succ_exhausted {n : ℕ} {st : GenState} {b1 b2 : ℕ}
    (hdp : findDupPair st.boards = some (b1, b2))
    (hsw : findSwap st.boards b1 b2 = none) :
    repairLoop (n + 1) st = .error .repairExhausted := by
  unfold repairLoop
  simp only [hdp, hsw]

theorem repairLoop_succ_swap {n : ℕ} {st : GenState} {b1 b2 x b3 y : ℕ}
    (hdp : findDupPair st.boards = some (b1, b2))
    (hsw : findSwap st.boards b1 b2 = some (x, b3, y)) :
    repairLoop (n + 1) st = repairLoop n (applySwap st x b2 y b3) := by
  conv_lhs => unfold repairLoop
  simp only [hdp, hsw]

theorem findDupPair_some {bs : List (Finset ℕ)} {b1 b2 : ℕ}
    (h : findDupPair bs = some (b1, b2)) :
    b1 < b2 ∧ b2 < NUM_BOARDS ∧ bs.getD b1 ∅ = bs.getD b2 ∅ := by
  unfold findDupPair at h
  obtain ⟨b, hb, hfb⟩ := List.exists_of_findSome?_eq_some h
  cases hfind : (List.range b).find? (fun a => decide (bs.getD a ∅ = bs.getD b ∅)) with
  | none => rw [hfind] at hfb; cases hfb
  | some a =>
    rw [hfind] at hfb
    simp only [Option.map_some', Option.some.injEq, Prod.mk.injEq] at hfb
    obtain ⟨ha1, hb2⟩ := hfb
    subst ha1
    subst hb2
    refine ⟨List.mem_range.mp (List.mem_of_find?_eq_some hfind),
      List.mem_range.mp hb, ?_⟩
    have hp := List.find?_some hfind
    simp only [decide_eq_true_eq] at hp
    exact hp

theorem findDupPair_none {bs : List (Finset ℕ)} (h : findDupPair bs = none) :
    NoDupB bs := by
  unfold findDupPair at h
  rw [List.findSome?_eq_none_iff] at h
  intro a ha b hb hne heqs
  rcases lt_trichotomy a b with hlt | heq | hlt
  · have hnone := h b (List.mem_range.mpr hb)
    rw [Option.map_eq_none'] at hnone
    rw [List.find?_eq_none] at hnone
    exact hnone a (List.mem_range.mpr hlt) (decide_eq_true heqs)
  · exact hne heq
  · have hnone := h a (List.mem_range.mpr ha)
    rw [Option.map_eq_none'] at hnone
    rw [List.find?_eq_none] at hnone
    exact hnone b (List.mem_range.mpr hlt) (decide_eq_true heqs.symm)

theorem findSwap_some {bs : List (Finset ℕ)} {b1 b2 x b3 y : ℕ}
    (h : findSwap bs b1 b2 = some (x, b3, y)) :
    x < NUM_ITEMS ∧ x ∈ bs.getD b2 ∅ ∧ b3 < NUM_BOARDS ∧ b3 ≠ b1 ∧ b3 ≠ b2 ∧
      y < NUM_ITEMS ∧ y ∈ bs.getD b3 ∅ ∧ x ∉ bs.getD b3 ∅ ∧ y ∉ bs.getD b2 ∅ ∧
      insert y ((bs.getD b2 ∅).erase x) ≠ bs.getD b1 ∅ := by
  unfold findSwap at h
  obtain ⟨x', hx', h1⟩ := List.exists_of_findSome?_eq_some h
  obtain ⟨b3', hb3', h2⟩ := List.exists_of_findSome?_eq_some h1
  obtain ⟨y', hy', h3⟩ := List.exists_of_findSome?_eq_some h2
  by_cases hc : x' ∉ bs.getD b3' ∅ ∧ y' ∉ bs.getD b2 ∅ ∧
      insert y' ((bs.getD b2 ∅).erase x') ≠ bs.getD b1 ∅
  · rw [if_pos hc] at h3
    simp only [Option.some.injEq, Prod.mk.injEq] at h3
    obtain ⟨hx1, hb1, hy1⟩ := h3
    subst hx1
    subst hb1
    subst hy1
    have hxm := mem_setAsc.mp hx'
    have hym := mem_setAsc.mp hy'
    have hb3m := List.mem_filter.mp hb3'
    have hb3ne := of_decide_eq_true hb3m.2
    exact ⟨hxm.1, hxm.2, List.mem_range.mp hb3m.1, hb3ne.1, hb3ne.2,
      hym.1, hym.2, hc.1, hc.2.1, hc.2.2⟩
  · rw [if_neg hc] at h3
    cases h3

theorem applySwap_boards_length (st : GenState) (x b2 y b3 : ℕ) :
    (applySwap st x b2 y b3).boards.length = st.boards.length := by
  simp [applySwap]

theorem applySwap_boards_other (st : GenState) (x b2 y b3 : ℕ) {b : ℕ}
    (h2 : b ≠ b2) (h3 : b ≠ b3) :
    (applySwap st x b2 y b3).boards.getD b ∅ = st.boards.getD b ∅ := by
  unfold applySwap
  rw [getD_set_ne _ h3, getD_set_ne _ h2]

theorem applySwap_boards_b2 (st : GenState) (x b2 y b3 : ℕ)
    (hne : b2 ≠ b3) (hlt : b2 < st.boards.length) :
    (applySwap st x b2 y b3).boards.getD b2 ∅ =
      insert y ((st.boards.getD b2 ∅).erase x) := by
  unfold applySwap
  exact (getD_set_ne _ hne _ _).trans (getD_set_self _ hlt _ _)

theorem applySwap_boards_b3 (st : GenState) (x b2 y b3 : ℕ)
    (hlt : b3 < st.boards.length) :
    (applySwap st x b2 y b3).boards.getD b3 ∅ =
      insert x ((st.boards.getD b3 ∅).erase y) := by
  unfold applySwap
  have hlt' : b3 < (st.boards.set b2 (insert y ((st.boards.getD b2 ∅).erase x))).length := by
    rw [List.length_set]
    exact hlt
  exact getD_set_self _ hlt' _ _

theorem applySwap_itb_other (st : GenState) (x b2 y b3 : ℕ) {i : ℕ}
    (hx : i ≠ x) (hy : i ≠ y) :
    (applySwap st x b2 y b3).itb.getD i [] = st.itb.getD i [] := by
  unfold applySwap
  rw [getD_set_ne _ hy, getD_set_ne _ hx]

theorem applySwap_itb_x (st : GenState) (x b2 y b3 : ℕ)
    (hxy : x ≠ y) (hlt : x < st.itb.length) :
    (applySwap st x b2 y b3).itb.getD x [] =
      (st.itb.getD x []).erase b2 ++ [b3] := by
  unfold applySwap
  exact (getD_set_ne _ hxy _ _).trans (getD_set_self _ hlt _ _)

theorem applySwap_itb_y (st : GenState) (x b2 y b3 : ℕ)
    (hlt : y < st.itb.length) :
    (applySwap st x b2 y b3).itb.getD y [] =
      (st.itb.getD y []).erase b3 ++ [b2] := by
  unfold applySwap
  have hlt' : y < (st.itb.set x ((st.itb.getD x []).erase b2 ++ [b3])).length := by
    rw [List.length_set]
    exact hlt
  exact getD_set_self _ hlt' _ _

theorem card_filter_swap {p q : ℕ → Prop} [DecidablePred p] [DecidablePred q]
    {u v n : ℕ} (hu : u < n) (hv : v < n)
    (hpu : ¬ p u) (hqu : q u) (hpv : p v) (hqv : ¬ q v)
    (hother : ∀ b, b ≠ u → b ≠ v → (p b ↔ q b)) :
    ((Finset.range n).filter p).card = ((Finset.range n).filter q).card := by
  have hset : (Finset.range n).filter p =
      insert v (((Finset.range n).filter q).erase u) := by
    ext b
    simp only [Finset.mem_insert, Finset.mem_erase, Finset.mem_filter, Finset.mem_range]
    constructor
    · rintro ⟨hbn, hpb⟩
      by_cases hbv : b = v
      · exact Or.inl hbv
      · by_cases hbu : b = u
        · subst hbu
          exact absurd hpb hpu
        · exact Or.inr ⟨hbu, hbn, (hother b hbu hbv).mp hpb⟩
    · rintro (hbv | ⟨hbu, hbn, hqb⟩)
      · subst hbv
        exact ⟨hv, hpv⟩
      · by_cases hbv : b = v
        · subst hbv
          exact absurd hqb hqv
        · exact ⟨hbn, (hother b hbu hbv).mpr hqb⟩
  rw [hset]
  have hvq : v ∉ ((Finset.range n).filter q).erase u := by
    intro hmem
    exact hqv (Finset.mem_filter.mp (Finset.mem_of_mem_erase hmem)).2
  rw [Finset.card_insert_of_not_mem hvq]
  have huq : u ∈ (Finset.range n).filter q :=
    Finset.mem_filter.mpr ⟨Finset.mem_range.mpr hu, hqu⟩
  rw [Finset.card_erase_of_mem huq]
  have hpos : 0 < ((Finset.range n).filter q).card := Finset.card_pos.mpr ⟨u, huq⟩
  omega

theorem countIn_applySwap (st : GenState) {x b2 y b3 : ℕ}
    (hb2 : b2 < NUM_BOARDS) (hb3 : b3 < NUM_BOARDS) (hne : b2 ≠ b3)
    (hlen : st.boards.length = NUM_BOARDS)
    (hx2 : x ∈ st.boards.getD b2 ∅) (hy3 : y ∈ st.boards.getD b3 ∅)
    (hx3 : x ∉ st.boards.getD b3 ∅) (hy2 : y ∉ st.boards.getD b2 ∅) :
    ∀ i, countIn (applySwap st x b2 y b3).boards i = countIn st.boards i := by
  have hxy : x ≠ y := fun hh => hx3 (hh ▸ hy3)
  have hl2 : b2 < st.boards.length := by rw [hlen]; exact hb2
  have hl3 : b3 < st.boards.length := by rw [hlen]; exact hb3
  have hB2 := applySwap_boards_b2 st x b2 y b3 hne hl2
  have hB3 := applySwap_boards_b3 st x b2 y b3 hl3
  intro i
  unfold countIn
  by_cases hix : i = x
  · subst hix
    apply card_filter_swap (u := b2) (v := b3) hb2 hb3
    · rw [hB2]
      simp [hxy]
    · exact hx2
    · rw [hB3]
      exact Finset.mem_insert_self i _
    · exact hx3
    · intro b hbu hbv
      rw [applySwap_boards_other st i b2 y b3 hbu hbv]
  · by_cases hiy : i = y
    · subst hiy
      apply card_filter_swap (u := b3) (v := b2) hb3 hb2
      · rw [hB3]
        simp [hix]
      · exact hy3
      · rw [hB2]
        exact Finset.mem_insert_self i _
      · exact hy2
      · intro b hbv hbu
        rw [applySwap_boards_other st x b2 i b3 hbu hbv]
    · apply congrArg
      apply Finset.filter_congr
      intro b _
      by_cases hb2' : b = b2
      · subst hb2'
        rw [hB2]
        simp [Finset.mem_insert, Finset.mem_erase, hix, hiy]
      · by_cases hb3' : b = b3
        · subst hb3'
          rw [hB3]
          simp [Finset.mem_insert, Finset.mem_erase, hix, hiy]
        · rw [applySwap_boards_other st x b2 y b3 hb2' hb3']

theorem sizeInv_applySwap (st : GenState) {x b2 y b3 : ℕ}
    (hb2 : b2 < NUM_BOARDS) (hb3 : b3 < NUM_BOARDS) (hne : b2 ≠ b3)
    (hlen : st.boards.length = NUM_BOARDS)
    (hx2 : x ∈ st.boards.getD b2 ∅) (hy3 : y ∈ st.boards.getD b3 ∅)
    (hx3 : x ∉ st.boards.getD b3 ∅) (hy2 : y ∉ st.boards.getD b2 ∅)
    (hs : SizeInv st.boards) : SizeInv (applySwap st x b2 y b3).boards := by
  have hl2 : b2 < st.boards.length := by rw [hlen]; exact hb2
  have hl3 : b3 < st.boards.length := by rw [hlen]; exact hb3
  intro b hb
  by_cases h2' : b = b2
  · subst h2'
    rw [applySwap_boards_b2 st x b y b3 hne hl2]
    have hyer : y ∉ (st.boards.getD b ∅).erase x :=
      fun hh => hy2 (Finset.mem_of_mem_erase hh)
    rw [Finset.card_insert_of_not_mem hyer, Finset.card_erase_of_mem hx2]
    have hpos : 0 < (st.boards.getD b ∅).card := Finset.card_pos.mpr ⟨x, hx2⟩
    have hsb := hs b hb2
    omega
  · by_cases h3' : b = b3
    · subst h3'
      rw [applySwap_boards_b3 st x b2 y b hl3]
      have hxer : x ∉ (st.boards.getD b ∅).erase y :=
        fun hh => hx3 (Finset.mem_of_mem_erase hh)
      rw [Finset.card_insert_of_not_mem hxer, Finset.card_erase_of_mem hy3]
      have hpos : 0 < (st.boards.getD b ∅).card := Finset.card_pos.mpr ⟨y, hy3⟩
      have hsb := hs b hb3
      omega
    · rw [applySwap_boards_other st x b2 y b3 h2' h3']
      exact hs b hb


theorem repairLoop_ok_inv :
    ∀ (n : ℕ) (st st' : GenState), st.boards.length = NUM_BOARDS →
      SizeInv st.boards → FreqInv st.boards → repairLoop n st = .ok st' →
      st'.boards.length = NUM_BOARDS ∧ SizeInv st'.boards ∧ FreqInv st'.boards := by
  intro n
  induction n with
  | zero =>
    intro st st' h1 h2 h3 h4
    have hst : st = st' := Except.ok.inj h4
    subst hst
    exact ⟨h1, h2, h3⟩
  | succ n ih =>
    intro st st' h1 h2 h3 h4
    cases hdp : findDupPair st.boards with
    | none =>
      rw [repairLoop_succ_none hdp] at h4
      have hst : st = st' := Except.ok.inj h4
      subst hst
      exact ⟨h1, h2, h3⟩
    | some p =>
      obtain ⟨b1, b2⟩ := p
      cases hsw : findSwap st.boards b1 b2 with
      | none =>
        rw [repairLoop_succ_exhausted hdp hsw] at h4
        exact Except.noConfusion h4
      | some t =>
        obtain ⟨xx, b3t⟩ := t
        obtain ⟨b3, yy⟩ := b3t
        rw [repairLoop_succ_swap hdp hsw] at h4
        obtain ⟨hd1, hd2, hd3⟩ := findDupPair_some hdp
        obtain ⟨hw1, hw2, hw3, hw4, hw5, hw6, hw7, hw8, hw9, hw10⟩ := findSwap_some hsw
        have hcnt := countIn_applySwap st hd2 hw3 (Ne.symm hw5) h1 hw2 hw7 hw8 hw9
        apply ih (applySwap st xx b2 yy b3) st'
        · rw [applySwap_boards_length]
          exact h1
        · exact sizeInv_applySwap st hd2 hw3 (Ne.symm hw5) h1 hw2 hw7 hw8 hw9 h2
        · intro i hi
          rw [hcnt i]
          exact h3 i hi
        · exact h4

theorem repairLoop_stable_ok :
    ∀ (n : ℕ) (st st' : GenState), st.boards.length = NUM_BOARDS →
      repairLoop n st = .ok st' → repairLoop (n + 1) st = .ok st' →
      NoDupB st'.boards := by
  intro n
  induction n with
  | zero =>
    intro st st' hlen h0 h1
    have hst : st = st' := Except.ok.inj h0
    subst hst
    cases hdp : findDupPair st.boards with
    | none => exact findDupPair_none hdp
    | some p =>
      obtain ⟨b1, b2⟩ := p
      cases hsw : findSwap st.boards b1 b2 with
      | none =>
        rw [repairLoop_succ_exhausted hdp hsw] at h1
        exact Except.noConfusion h1
      | some t =>
        obtain ⟨xx, b3t⟩ := t
        obtain ⟨b3, yy⟩ := b3t
        rw [repairLoop_succ_swap hdp hsw] at h1
        have happ : applySwap st xx b2 yy b3 = st := Except.ok.inj h1
        exfalso
        obtain ⟨hd1, hd2, hd3⟩ := findDupPair_some hdp
        obtain ⟨hw1, hw2, hw3, hw4, hw5, hw6, hw7, hw8, hw9, hw10⟩ := findSwap_some hsw
        have hl2 : b2 < st.boards.length := by rw [hlen]; exact hd2
        have hB2 := applySwap_boards_b2 st xx b2 yy b3 (Ne.symm hw5) hl2
        rw [happ] at hB2
        apply hw9
        rw [hB2]
        exact Finset.mem_insert_self yy _
  | succ n ih =>
    intro st st' hlen h1 h2
    cases hdp : findDupPair st.boards with
    | none =>
      rw [repairLoop_succ_none hdp] at h1
      have hst : st = st' := Except.ok.inj h1
      subst hst
      exact findDupPair_none hdp
    | some p =>
      obtain ⟨b1, b2⟩ := p
      cases hsw : findSwap st.boards b1 b2 with
      | none =>
        rw [repairLoop_succ_exhausted hdp hsw] at h1
        exact Except.noConfusion h1
      | some t =>
        obtain ⟨xx, b3t⟩ := t
        obtain ⟨b3, yy⟩ := b3t
        rw [repairLoop_succ_swap hdp hsw] at h1
        rw [repairLoop_succ_swap hdp hsw] at h2
        exact ih (applySwap st xx b2 yy b3) st'
          (by rw [applySwap_boards_length]; exact hlen) h1 h2

/-- C3 (amended): when the repair procedure returns successfully on an
input satisfying the frequency and card-size invariants, both invariants
still hold; the returned assignment is additionally free of identical cards
whenever the run did not consume the whole pass budget (formally: whenever
one extra pass returns the same result).  At the pass limit the procedure
can return with duplicates remaining. -/
theorem claim_C3 (n : ℕ) (st st' : GenState)
    (hlen : st.boards.length = NUM_BOARDS)
    (hsz : SizeInv st.boards) (hfr : FreqInv st.boards)
    (hok : repairLoop n st = .ok st') :
    SizeInv st'.boards ∧ FreqInv st'.boards ∧
      (repairLoop (n + 1) st = .ok st' → NoDupB st'.boards) := by
  obtain ⟨h1, h2, h3⟩ := repairLoop_ok_inv n st st' hlen hsz hfr hok
  exact ⟨h2, h3, fun hmore => repairLoop_stable_ok n st st' hlen hok hmore⟩

theorem claim_C3_witness :
    (pipeSt.boards.length = NUM_BOARDS ∧ SizeInv pipeSt.boards ∧
      FreqInv pipeSt.boards ∧ repairLoop 1 pipeSt = .ok pipeSt ∧
      repairLoop 2 pipeSt = .ok pipeSt) ∧
    (SizeInv pipeSt.boards ∧ FreqInv pipeSt.boards ∧
      (repairLoop 2 pipeSt = .ok pipeSt → NoDupB pipeSt.boards)) :=
  ⟨⟨by decide, by decide, by decide, by decide, by decide⟩,
    claim_C3 1 pipeSt pipeSt (by decide) (by decide) (by decide) (by decide)⟩

/-- C3 counterexample: `oscSt` satisfies the frequency and card-size
invariants (and bidirectional consistency), yet the repair procedure
returns normally on it with boards 0 and 1 still identical: the claim that
every successful return is duplicate-free is false at this input. -/
theorem claim_C3_counterexample :
    SizeInv oscSt.boards ∧ FreqInv oscSt.boards ∧ Consistent oscSt ∧
      repairLoop 100 oscSt = .ok oscFinal ∧ ¬ NoDupB oscFinal.boards :=
  ⟨by decide, by decide, by decide, osc_eval, by decide⟩

/-- C1 (amended): when duplicates remain after the 100 bounded repair
passes, the repair procedure returns normally, leaving the duplicates in
place (shown on the concrete oscillating input), and the only error the
repair procedure ever raises is `RepairExhausted` — there is no
`RepairIterationLimit` (or other) error. -/
theorem claim_C1 :
    (repairLoop 100 oscSt = .ok oscFinal ∧ ¬ NoDupB oscFinal.boards) ∧
    (∀ (n : ℕ) (st : GenState) (e : GenError),
      repairLoop n st = .error e → e = .repairExhausted) := by
  refine ⟨⟨osc_eval, by decide⟩, ?_⟩
  intro n
  induction n with
  | zero =>
    intro st e h
    exact Except.noConfusion h
  | succ n ih =>
    intro st e h
    cases hdp : findDupPair st.boards with
    | none =>
      rw [repairLoop_succ_none hdp] at h
      exact Except.noConfusion h
    | some p =>
      obtain ⟨b1, b2⟩ := p
      cases hsw : findSwap st.boards b1 b2 with
      | none =>
        rw [repairLoop_succ_exhausted hdp hsw] at h
        exact (Except.error.inj h).symm
      | some t =>
        obtain ⟨xx, b3t⟩ := t
        obtain ⟨b3, yy⟩ := b3t
        rw [repairLoop_succ_swap hdp hsw] at h
        exact ih (applySwap st xx b2 yy b3) e h

theorem claim_C1_witness :
    repairLoop 1 allSameSt = Except.error GenError.repairExhausted ∧
      GenError.repairExhausted = GenError.repairExhausted :=
  ⟨by decide, claim_C1.2 1 allSameSt GenError.repairExhausted (by decide)⟩

/-- C1 counterexample: on the concrete input `oscSt` the repair search
oscillates, all 100 passes elapse with a swap applied in each, and the
procedure returns normally (`Except.ok`) with boards 0 and 1 still holding
the same item set — it does not fail with any error, contradicting the
claimed `RepairIterationLimit` failure. -/
theorem claim_C1_counterexample :
    repairLoop 100 oscSt = .ok oscFinal ∧
      oscFinal.boards.getD 0 ∅ = oscFinal.boards.getD 1 ∅ :=
  ⟨osc_eval, by decide⟩

/-- C10: a repair step found by the duplicate scan and the swap search
modifies only the item sets of the repaired board `b2` and of the third
board `b3`; every other board, the first board `b1` of the duplicate pair
included, keeps its item set unchanged. -/
theorem claim_C10 (st : GenState) (b1 b2 x b3 y : ℕ)
    (hdp : findDupPair st.boards = some (b1, b2))
    (hsw : findSwap st.boards b1 b2 = some (x, b3, y)) :
    (∀ b, b ≠ b2 → b ≠ b3 →
      (applySwap st x b2 y b3).boards.getD b ∅ = st.boards.getD b ∅) ∧
    (applySwap st x b2 y b3).boards.getD b1 ∅ = st.boards.getD b1 ∅ := by
  obtain ⟨hd1, hd2, hd3⟩ := findDupPair_some hdp
  obtain ⟨hw1, hw2, hw3, hw4, hw5, hw6, hw7, hw8, hw9, hw10⟩ := findSwap_some hsw
  have hmain : ∀ b, b ≠ b2 → b ≠ b3 →
      (applySwap st x b2 y b3).boards.getD b ∅ = st.boards.getD b ∅ :=
    fun b h2 h3 => applySwap_boards_other st x b2 y b3 h2 h3
  exact ⟨hmain, hmain b1 (Nat.ne_of_lt hd1) (Ne.symm hw4)⟩

theorem claim_C10_witness :
    findDupPair oscSt.boards = some (0, 1) ∧
      findSwap oscSt.boards 0 1 = some (0, 2, 16) ∧
      (∀ b, b ≠ 1 → b ≠ 2 →
        (applySwap oscSt 0 1 16 2).boards.getD b ∅ = oscSt.boards.getD b ∅) ∧
      (applySwap oscSt 0 1 16 2).boards.getD 0 ∅ = oscSt.boards.getD 0 ∅ :=
  ⟨by decide, by decide,
    (claim_C10 oscSt 0 1 0 2 16 (by decide) (by decide)).1,
    (claim_C10 oscSt 0 1 0 2 16 (by decide) (by decide)).2⟩


/-- C4: an applied repair swap with the source's preconditions leaves every
item's card-count unchanged (in particular items `x` and `y` keep their
exact frequency), and keeps the card-to-items and item-to-cards views
consistent: afterwards every item's board list — the lists of `x` and `y`
included — records exactly the boards whose item sets contain it. -/
theorem claim_C4 (st : GenState) (x b2 y b3 : ℕ)
    (hb2 : b2 < NUM_BOARDS) (hb3 : b3 < NUM_BOARDS) (hne : b2 ≠ b3)
    (hxN : x < NUM_ITEMS) (hyN : y < NUM_ITEMS)
    (hlen : st.boards.length = NUM_BOARDS) (hilen : st.itb.length = NUM_ITEMS)
    (hx2 : x ∈ st.boards.getD b2 ∅) (hy3 : y ∈ st.boards.getD b3 ∅)
    (hx3 : x ∉ st.boards.getD b3 ∅) (hy2 : y ∉ st.boards.getD b2 ∅)
    (hc : Consistent st) :
    (∀ i, countIn (applySwap st x b2 y b3).boards i = countIn st.boards i) ∧
      Consistent (applySwap st x b2 y b3) := by
  have hxy : x ≠ y := fun hh => hx3 (hh ▸ hy3)
  have hl2 : b2 < st.boards.length := by rw [hlen]; exact hb2
  have hl3 : b3 < st.boards.length := by rw [hlen]; exact hb3
  have hB2 := applySwap_boards_b2 st x b2 y b3 hne hl2
  have hB3 := applySwap_boards_b3 st x b2 y b3 hl3
  have hIx := applySwap_itb_x st x b2 y b3 hxy (by rw [hilen]; exact hxN)
  have hIy := applySwap_itb_y st x b2 y b3 (by rw [hilen]; exact hyN)
  refine ⟨countIn_applySwap st hb2 hb3 hne hlen hx2 hy3 hx3 hy2, ?_⟩
  intro i hi
  obtain ⟨hnd, hbound, hmemiff⟩ := hc i hi
  by_cases hix : i = x
  · subst hix
    rw [hIx]
    have hb3n : b3 ∉ st.itb.getD i [] := fun hmem => hx3 ((hmemiff b3 hb3).mp hmem)
    refine ⟨?_, ?_, ?_⟩
    · rw [List.nodup_append]
      refine ⟨hnd.erase b2, List.nodup_singleton _, ?_⟩
      intro a ha hmem
      have hab := List.mem_singleton.mp hmem
      subst hab
      exact hb3n (List.mem_of_mem_erase ha)
    · intro b hbmem
      rcases List.mem_append.mp hbmem with hbm | hbm
      · exact hbound b (List.mem_of_mem_erase hbm)
      · rw [List.mem_singleton.mp hbm]
        exact hb3
    · intro b hb
      rw [List.mem_append, List.mem_singleton, hnd.mem_erase_iff]
      by_cases hbb3 : b = b3
      · subst hbb3
        constructor
        · intro _
          rw [hB3]
          exact Finset.mem_insert_self _ _
        · intro _
          exact Or.inr rfl
      · by_cases hbb2 : b = b2
        · subst hbb2
          rw [hB2]
          constructor
          · rintro (⟨hne2, _⟩ | h3)
            · exact absurd rfl hne2
            · exact absurd h3 hbb3
          · intro hmem
            rcases Finset.mem_insert.mp hmem with hh | hh
            · exact absurd hh hxy
            · exact absurd rfl (Finset.mem_erase.mp hh).1
        · rw [applySwap_boards_other st _ b2 y b3 hbb2 hbb3]
          constructor
          · rintro (⟨_, hmem⟩ | h3)
            · exact (hmemiff b hb).mp hmem
            · exact absurd h3 hbb3
          · intro hmem
            exact Or.inl ⟨hbb2, (hmemiff b hb).mpr hmem⟩
  · by_cases hiy : i = y
    · subst hiy
      rw [hIy]
      have hb2n : b2 ∉ st.itb.getD i [] := fun hmem => hy2 ((hmemiff b2 hb2).mp hmem)
      refine ⟨?_, ?_, ?_⟩
      · rw [List.nodup_append]
        refine ⟨hnd.erase b3, List.nodup_singleton _, ?_⟩
        intro a ha hmem
        have hab := List.mem_singleton.mp hmem
        subst hab
        exact hb2n (List.mem_of_mem_erase ha)
      · intro b hbmem
        rcases List.mem_append.mp hbmem with hbm | hbm
        · exact hbound b (List.mem_of_mem_erase hbm)
        · rw [List.mem_singleton.mp hbm]
          exact hb2
      · intro b hb
        rw [List.mem_append, List.mem_singleton, hnd.mem_erase_iff]
        by_cases hbb2 : b = b2
        · subst hbb2
          constructor
          · intro _
            rw [hB2]
            exact Finset.mem_insert_self _ _
          · intro _
            exact Or.inr rfl
        · by_cases hbb3 : b = b3
          · subst hbb3
            rw [hB3]
            constructor
            · rintro (⟨hne3, _⟩ | h2)
              · exact absurd rfl hne3
              · exact absurd h2 hbb2
            · intro hmem
              rcases Finset.mem_insert.mp hmem with hh | hh
              · exact absurd hh (fun hh2 => hxy hh2.symm)
              · exact absurd rfl (Finset.mem_erase.mp hh).1
          · rw [applySwap_boards_other st x b2 _ b3 hbb2 hbb3]
            constructor
            · rintro (⟨_, hmem⟩ | h2)
              · exact (hmemiff b hb).mp hmem
              · exact absurd h2 hbb2
            · intro hmem
              exact Or.inl ⟨hbb3, (hmemiff b hb).mpr hmem⟩
    · rw [applySwap_itb_other st x b2 y b3 hix hiy]
      refine ⟨hnd, hbound, ?_⟩
      intro b hb
      by_cases hbb2 : b = b2
      · subst hbb2
        rw [hB2]
        have hiff : i ∈ insert y ((st.boards.getD b ∅).erase x) ↔
            i ∈ st.boards.getD b ∅ := by
          simp [Finset.mem_insert, Finset.mem_erase, hix, hiy]
        rw [hiff]
        exact hmemiff _ hb
      · by_cases hbb3 : b = b3
        · subst hbb3
          rw [hB3]
          have hiff : i ∈ insert x ((st.boards.getD b ∅).erase y) ↔
              i ∈ st.boards.getD b ∅ := by
            simp [Finset.mem_insert, Finset.mem_erase, hix, hiy]
          rw [hiff]
          exact hmemiff _ hb
        · rw [applySwap_boards_other st x b2 y b3 hbb2 hbb3]
          exact hmemiff b hb

theorem claim_C4_witness :
    (0 ∈ smallSt.boards.getD 0 ∅ ∧ 1 ∈ smallSt.boards.getD 1 ∅ ∧
      Consistent smallSt) ∧
    ((∀ i, countIn (applySwap smallSt 0 0 1 1).boards i = countIn smallSt.boards i) ∧
      Consistent (applySwap smallSt 0 0 1 1)) :=
  ⟨⟨by decide, by decide, by decide⟩,
    claim_C4 smallSt 0 0 1 1 (by decide) (by decide) (by decide) (by decide)
      (by decide) (by decide) (by decide) (by decide) (by decide) (by decide)
      (by decide) (by decide)⟩

/-- C5: the allocator loop fails — necessarily with the insufficient
capacity error, the only one it raises — exactly when some item, at its
point in the processing order, has fewer eligible boards (positive
remaining capacity, not already holding the item) than its required
frequency. -/
theorem claim_C5 (items : List ℕ) : ∀ st : GenState,
    allocItems items st = .error .insufficientCapacity ↔
      ∃ pre item post st', items = pre ++ item :: post ∧
        allocItems pre st = .ok st' ∧
        (availableBoards st' item).length < get_item_frequency item := by
  induction items with
  | nil =>
    intro st
    constructor
    · intro h
      exact Except.noConfusion h
    · rintro ⟨pre, item, post, st', happ, -, -⟩
      cases pre <;> simp at happ
  | cons i rest ih =>
    intro st
    by_cases hcond : (availableBoards st i).length < get_item_frequency i
    · constructor
      · intro _
        exact ⟨[], i, rest, st, rfl, rfl, hcond⟩
      · intro _
        show allocItems (i :: rest) st = .error .insufficientCapacity
        simp only [allocItems, allocStep, if_pos hcond]
    · have hstep : allocStep st i = .ok (placeItem st i (select_boards st i)) := by
        unfold allocStep
        rw [if_neg hcond]
      have hreduce : allocItems (i :: rest) st =
          allocItems rest (placeItem st i (select_boards st i)) := by
        simp only [allocItems, hstep]
      rw [hreduce, ih (placeItem st i (select_boards st i))]
      constructor
      · rintro ⟨pre, item, post, st', happ, hok, hlt⟩
        refine ⟨i :: pre, item, post, st', by rw [happ, List.cons_append], ?_, hlt⟩
        show allocItems (i :: pre) st = .ok st'
        have hred : allocItems (i :: pre) st =
            allocItems pre (placeItem st i (select_boards st i)) := by
          simp only [allocItems, hstep]
        rw [hred]
        exact hok
      · rintro ⟨pre, item, post, st', happ, hok, hlt⟩
        cases pre with
        | nil =>
          simp only [List.nil_append] at happ
          injection happ with h1 h2
          subst h1
          have hst : st = st' := Except.ok.inj hok
          subst hst
          exact absurd hlt hcond
        | cons j pre' =>
          simp only [List.cons_append] at happ
          injection happ with h1 h2
          subst h1
          have hok' : allocItems pre' (placeItem st i (select_boards st i)) = .ok st' := by
            have hred : allocItems (i :: pre') st =
                allocItems pre' (placeItem st i (select_boards st i)) := by
              simp only [allocItems, hstep]
            rw [← hred]
            exact hok
          exact ⟨pre', item, post, st', h2, hok', hlt⟩

theorem claim_C5_witness :
    allocItems [0] zeroCapSt = Except.error GenError.insufficientCapacity :=
  (claim_C5 [0] zeroCapSt).mpr ⟨[], 0, [], zeroCapSt, rfl, rfl, by decide⟩

/-- C9: the embedded pipeline is a pure function of the fixed catalogue,
frequency rule, card count and card size; its result is the single concrete
value proved here, so any two runs with these inputs return identical
results. -/
theorem claim_C9 : generate_balanced = .ok pipelineOutput := pipeline_eval

/-- C2: every successful run of the allocator-then-repair pipeline places
every item `i` on exactly `get_item_frequency i` boards: 7 boards for
items 0–23 and 6 boards for items 24–35. -/
theorem claim_C2 (bs : List (Finset ℕ)) (h : generate_balanced = .ok bs) :
    ∀ i < NUM_ITEMS, countIn bs i = get_item_frequency i := by
  have hbs : pipelineOutput = bs := Except.ok.inj (pipeline_eval.symm.trans h)
  subst hbs
  decide

theorem claim_C2_witness :
    generate_balanced = .ok pipelineOutput ∧
      (∀ i < NUM_ITEMS, countIn pipelineOutput i = get_item_frequency i) :=
  ⟨pipeline_eval, claim_C2 pipelineOutput pipeline_eval⟩

theorem claim_C6_witness :
    (1 < NUM_BOARDS ∧ (1 : ℕ) ≠ 5) ∧
      simulatedOverlap 0 5 oscBoards 1 ≤ overlap_score 0 5 oscBoards :=
  ⟨⟨by decide, by decide⟩, (claim_C6 0 5 oscBoards).1 1 (by decide) (by decide)⟩


end Loteria
